import Mathlib

/-!
# Verification of the websocket subscription multiplexing core

Shallow embedding of `src/client/websocket.rs` from `binance-async-rs`:
the `BinanceWebsocket` state (two hash maps and a `StreamUnordered` poll
engine), its `subscribe` / `unsubscribe` operations, the `Stream::poll_next`
implementation, and the `parse_message` frame decoder.

Hash maps are embedded as association lists whose insert replaces the
entry at an existing key (as `HashMap::insert` does).  The external
`streamunordered` crate is embedded per the specification of the Poll
Engine (section 4.2): a token-keyed set of scripted streams; `advance`
picks one ready member (the choice among ready members is unspecified, so
it is a `pick` parameter), yields the member's next item, emits a
finished-signal exactly once when a member's stream is exhausted, and
reports emptiness when the set holds no members.  Network I/O is
abstracted: the outcome of the `connect_async` handshake is an explicit
`Option` argument of `subscribe`, and each connection is scripted as the
list of items its split stream will deliver.

The `model` module (`Subscription`, `BinanceWebsocketMessage`, the payload
types) is declared in `lib.rs` but its file is absent from the sources, so
those types are modelled from the spec; the constructor names are the ones
`websocket.rs` matches on.  JSON schema matching (`serde_json::from_str`)
is abstracted into a `Schemas` environment of partial parse functions, one
per topic kind, since the spec leaves field-level payload detail out of
scope.
-/

namespace Binance

/-- Modelled from the spec: the subscription descriptor
(`model::websocket::Subscription`, absent from the sources).  Variants and
payloads are the ones `websocket.rs` pattern-matches on; the spec calls
`OrderBook` by the name `OrderBookLevels`. -/
inductive Subscription where
  | AggregateTrade (symbol : String)
  | Candlestick (symbol : String) (interval : String)
  | Depth (symbol : String)
  | MiniTicker (symbol : String)
  | MiniTickerAll
  | OrderBook (symbol : String) (depth : Nat)
  | Ticker (symbol : String)
  | TickerAll
  | Trade (symbol : String)
  | UserData (listenKey : String)
deriving DecidableEq

/-- Modelled from the spec: payload of an aggregate-trade push message.
Field-level JSON detail is out of scope, so the payload is abstracted to
its accepted raw form. -/
structure AggregateTradePayload where
  raw : String
deriving DecidableEq

/-- Modelled from the spec: payload of a candlestick push message. -/
structure CandlestickPayload where
  raw : String
deriving DecidableEq

/-- Modelled from the spec: payload of a depth push message. -/
structure DepthPayload where
  raw : String
deriving DecidableEq

/-- Modelled from the spec: payload of a mini-ticker push message. -/
structure MiniTickerPayload where
  raw : String
deriving DecidableEq

/-- Modelled from the spec: payload of the all-market mini-ticker push
message. -/
structure MiniTickerAllPayload where
  raw : String
deriving DecidableEq

/-- Modelled from the spec: payload of a partial order-book push message. -/
structure OrderBookPayload where
  raw : String
deriving DecidableEq

/-- Modelled from the spec: payload of a ticker push message. -/
structure TickerPayload where
  raw : String
deriving DecidableEq

/-- Modelled from the spec: payload of the all-market ticker push message. -/
structure TickerAllPayload where
  raw : String
deriving DecidableEq

/-- Modelled from the spec: payload of a raw-trade push message. -/
structure TradePayload where
  raw : String
deriving DecidableEq

/-- Modelled from the spec: the user-data account-update payload
(`model::websocket::AccountUpdate`, absent from the sources). -/
structure AccountUpdate where
  raw : String
deriving DecidableEq

/-- Modelled from the spec: the user-data order-update payload
(`model::websocket::UserOrderUpdate`, absent from the sources). -/
structure UserOrderUpdate where
  raw : String
deriving DecidableEq

/-- Embedding of `tungstenite::Message`: the raw frame kinds the decoder
dispatches on.  Payload bytes are `List Nat`; the `Frame` variant stands
for a raw protocol frame, which `parse_message` rejects. -/
inductive Message where
  | Text (s : String)
  | Binary (b : List Nat)
  | Ping (b : List Nat)
  | Pong (b : List Nat)
  | Close
  | Frame
deriving DecidableEq

/-- Modelled from the spec: the decoded message
(`model::websocket::BinanceWebsocketMessage`, absent from the sources):
one variant per topic payload shape (two for user data), plus the
transport-level `Binary` / `Ping` / `Pong` passthrough variants. -/
inductive BinanceWebsocketMessage where
  | AggregateTrade (p : AggregateTradePayload)
  | Candlestick (p : CandlestickPayload)
  | Depth (p : DepthPayload)
  | MiniTicker (p : MiniTickerPayload)
  | MiniTickerAll (p : MiniTickerAllPayload)
  | OrderBook (p : OrderBookPayload)
  | Ticker (p : TickerPayload)
  | TickerAll (p : TickerAllPayload)
  | Trade (p : TradePayload)
  | UserAccountUpdate (p : AccountUpdate)
  | UserOrderUpdate (p : UserOrderUpdate)
  | Binary (b : List Nat)
  | Ping
  | Pong
deriving DecidableEq

/-- The errors the websocket client can produce, gathered from
`error.rs` and the `anyhow!` sites in `websocket.rs`.
`jsonError` embeds a `serde_json` parse failure propagated by `?`: that
error value is computed by `from_str` from the payload and the expected
schema alone, so it is abstracted to a bare token.  `malformedPayload` is
the error shape the spec's taxonomy describes (an error carrying the
descriptor and a payload excerpt); it is included so that statements about
it can be made, and the embedded code never produces it. -/
inductive WsError where
  | jsonError
  | socketClosed
  | unexpectedFrame
  | streamError
  | noStreamSubscribed
  | malformedPayload (descriptor : Subscription) (excerpt : String)
deriving DecidableEq

/-- The JSON schema environment: one partial parse function per topic
kind, plus the two user-data schemas, abstracting `serde_json::from_str`
at each of the concrete payload types. -/
structure Schemas where
  aggTrade : String → Option AggregateTradePayload
  candlestick : String → Option CandlestickPayload
  depth : String → Option DepthPayload
  miniTicker : String → Option MiniTickerPayload
  miniTickerAll : String → Option MiniTickerAllPayload
  orderBook : String → Option OrderBookPayload
  ticker : String → Option TickerPayload
  tickerAll : String → Option TickerAllPayload
  trade : String → Option TradePayload
  accountUpdate : String → Option AccountUpdate
  userOrderUpdate : String → Option UserOrderUpdate

/-- Embedding of `from_str(&msg)?` followed by wrapping in a message
constructor: a parse failure propagates as the bare JSON error. -/
def decodeWith {α : Type} (p : Option α) (f : α → BinanceWebsocketMessage) :
    Except WsError BinanceWebsocketMessage :=
  match p with
  | some a => .ok (f a)
  | none => .error .jsonError

/-- Embedding of `parse_message` (`websocket.rs` lines 92-123): dispatch
on the frame kind first (Binary/Ping/Pong passthrough, Close and raw
frames fail), then parse Text against the schema selected by the
subscription's topic kind; `UserData` uses the untagged
`Either<AccountUpdate, UserOrderUpdate>`, which tries the account-update
schema first and falls back to the order-update schema. -/
def parseMessage (σ : Schemas) (sub : Subscription) (msg : Message) :
    Except WsError BinanceWebsocketMessage :=
  match msg with
  | .Binary b => .ok (.Binary b)
  | .Pong _ => .ok .Pong
  | .Ping _ => .ok .Ping
  | .Close => .error .socketClosed
  | .Frame => .error .unexpectedFrame
  | .Text m =>
    match sub with
    | .AggregateTrade _ => decodeWith (σ.aggTrade m) .AggregateTrade
    | .Candlestick _ _ => decodeWith (σ.candlestick m) .Candlestick
    | .Depth _ => decodeWith (σ.depth m) .Depth
    | .MiniTicker _ => decodeWith (σ.miniTicker m) .MiniTicker
    | .MiniTickerAll => decodeWith (σ.miniTickerAll m) .MiniTickerAll
    | .OrderBook _ _ => decodeWith (σ.orderBook m) .OrderBook
    | .Ticker _ => decodeWith (σ.ticker m) .Ticker
    | .TickerAll => decodeWith (σ.tickerAll m) .TickerAll
    | .Trade _ => decodeWith (σ.trade m) .Trade
    | .UserData _ =>
      match σ.accountUpdate m with
      | some a => .ok (.UserAccountUpdate a)
      | none =>
        match σ.userOrderUpdate m with
        | some o => .ok (.UserOrderUpdate o)
        | none => .error .jsonError

/-- The topic string `subscribe` derives from the descriptor
(`websocket.rs` lines 35-48). -/
def subscribeTopic (subscription : Subscription) : String :=
  match subscription with
  | .AggregateTrade symbol => symbol ++ "@aggTrade"
  | .Candlestick symbol interval => symbol ++ "@kline_" ++ interval
  | .Depth symbol => symbol ++ "@depth"
  | .MiniTicker symbol => symbol ++ "@miniTicker"
  | .MiniTickerAll => "!miniTicker@arr"
  | .OrderBook symbol depth => symbol ++ "@depth" ++ toString depth
  | .Ticker symbol => symbol ++ "@ticker"
  | .TickerAll => "!ticker@arr"
  | .Trade symbol => symbol ++ "@trade"
  | .UserData key => key

/-- The `WS_URL` constant from `websocket.rs`. -/
def WS_URL : String := "wss://stream.binance.com:9443/ws"

/-- The endpoint `subscribe` connects to. -/
def subscribeEndpoint (subscription : Subscription) : String :=
  WS_URL ++ "/" ++ subscribeTopic subscription

/-! ## Association-list embedding of `HashMap` -/

/-- Embedding of `HashMap::get`: the value at a key, if any. -/
def lookupA {α β : Type} [DecidableEq α] : List (α × β) → α → Option β
  | [], _ => none
  | (k, v) :: m, a => if a = k then some v else lookupA m a

/-- Drop every entry at a key. -/
def removeA {α β : Type} [DecidableEq α] (m : List (α × β)) (k : α) :
    List (α × β) :=
  m.filter (fun p => decide (p.1 ≠ k))

/-- Embedding of `HashMap::insert`: replaces the entry at an existing key. -/
def insertA {α β : Type} [DecidableEq α] (m : List (α × β)) (k : α) (v : β) :
    List (α × β) :=
  (k, v) :: removeA m k

/-- The keys of an association list. -/
def keysA {α β : Type} (m : List (α × β)) : List α := m.map Prod.fst

/-! ## The Poll Engine (`StreamUnordered`)

Embedded per spec section 4.2.  Each member is scripted as the list of
items its stream will deliver (`StreamItem.transportError` models an
`Err` item from the transport).  A member whose script is exhausted
yields a finished-signal exactly once, then counts as inactive; an
engine holding no members reports `empty` (the `Poll::Ready(None)` of
`StreamUnordered`). -/

/-- One item delivered by a split websocket stream: a frame, or a
transport error (`tungstenite::Error`). -/
inductive StreamItem where
  | frame (m : Message)
  | transportError
deriving DecidableEq

/-- Embedding of `StoredStream`: the script of items the split stream
will deliver. -/
abbrev StoredStream := List StreamItem

/-- One engine slot: the member's remaining script and whether its
finished-signal has already been emitted. -/
structure SlotData where
  frames : List StreamItem
  finishedEmitted : Bool
deriving DecidableEq

/-- The engine's member set, keyed by token. -/
abbrev StreamUnordered := List (Nat × SlotData)

/-- A token unique among the active members (spec section 4.2: `insert`'s
token is unique among active members). -/
def freshToken (used : List Nat) : Nat :=
  used.foldr (fun a b => max a b) 0 + 1

/-- Embedding of `StreamUnordered::insert`: admit a connection, returning its token. -/
def streamInsert (streams : StreamUnordered) (conn : StoredStream) :
    Nat × StreamUnordered :=
  let t := freshToken (keysA streams)
  (t, (t, ⟨conn, false⟩) :: streams)

/-- Embedding of `StreamUnordered::take`: extract the member at a token, if present;
absent tokens leave the engine unchanged. -/
def streamTake (streams : StreamUnordered) (token : Nat) :
    Option StoredStream × StreamUnordered :=
  match lookupA streams token with
  | none => (none, streams)
  | some slot => (some slot.frames, removeA streams token)

/-- The members that can still produce a signal: those whose
finished-signal has not been emitted yet. -/
def readyTokens (streams : StreamUnordered) : List Nat :=
  keysA (streams.filter (fun p => !p.2.finishedEmitted))

/-- The ready member an advancement cycle acts on.  The spec leaves the
choice among simultaneously ready members unspecified, so it is
resolved by the `pick` parameter. -/
def pickReady (streams : StreamUnordered) (pick : Nat) : Nat :=
  (readyTokens streams).getD (pick % (readyTokens streams).length) 0

/-- What one advancement cycle of the engine reports. -/
inductive AdvanceOut where
  | item (f : StreamItem) (token : Nat)
  | finished (token : Nat)
  | empty
  | pending
deriving DecidableEq

/-- One advancement cycle of the engine (spec section 4.2): report
`empty` when no members are held; otherwise act on one ready member,
yielding its next item, or its finished-signal exactly once when its
script is exhausted; report `pending` when no member is ready. -/
def advance (streams : StreamUnordered) (pick : Nat) :
    AdvanceOut × StreamUnordered :=
  if streams.isEmpty then (.empty, streams)
  else if (readyTokens streams).isEmpty then (.pending, streams)
  else
    match lookupA streams (pickReady streams pick) with
    | none => (.pending, streams)
    | some slot =>
      match slot.frames with
      | f :: rest =>
        (.item f (pickReady streams pick),
          insertA streams (pickReady streams pick)
            ⟨rest, slot.finishedEmitted⟩)
      | [] =>
        (.finished (pickReady streams pick),
          insertA streams (pickReady streams pick) ⟨[], true⟩)

/-! ## The façade: `BinanceWebsocket` -/

/-- Embedding of the `BinanceWebsocket` struct (`websocket.rs` lines
26-31): the descriptor-to-token and token-to-descriptor hash maps and
the engine's member set. -/
structure BinanceWebsocket where
  subscriptions : List (Subscription × Nat)
  tokens : List (Nat × Subscription)
  streams : StreamUnordered
deriving DecidableEq

/-- Embedding of `BinanceWebsocket::default()`: everything empty. -/
def initWS : BinanceWebsocket := ⟨[], [], []⟩

/-- Embedding of `subscribe` (`websocket.rs` lines 34-59).  The topic
string and endpoint are derived from the descriptor; the network is
abstracted as the `connect` environment, which gives the outcome of the
`connect_async` handshake at each endpoint (`none` = handshake failure,
propagated by `?` before any state is touched; `some conn` = the split
stream obtained).  On success the connection is inserted into the engine
and both map directions are updated with the fresh token. -/
def subscribe (ws : BinanceWebsocket) (subscription : Subscription)
    (connect : String → Option StoredStream) :
    Except Unit Unit × BinanceWebsocket :=
  match connect (subscribeEndpoint subscription) with
  | none => (.error (), ws)
  | some conn =>
    let ts := streamInsert ws.streams conn
    (.ok (),
      { subscriptions := insertA ws.subscriptions subscription ts.1,
        tokens := insertA ws.tokens ts.1 subscription,
        streams := ts.2 })

/-- Embedding of `unsubscribe` (`websocket.rs` lines 61-66):
`subscriptions.get(sub).and_then(|token| StreamUnordered::take(streams, token))`.
Neither hash map is written. -/
def unsubscribe (ws : BinanceWebsocket) (subscription : Subscription) :
    Option StoredStream × BinanceWebsocket :=
  match lookupA ws.subscriptions subscription with
  | none => (none, ws)
  | some token =>
    match lookupA ws.streams token with
    | none => (none, ws)
    | some slot =>
      (some slot.frames, { ws with streams := removeA ws.streams token })

deriving instance DecidableEq for Except

/-- What one `poll_next` call returns: an item (`Poll::Ready(Some(..))`),
the end of the sequence (`Poll::Ready(None)`), `Poll::Pending`, or the
panic of `tokens.get(&token).unwrap()`. -/
inductive PollOut where
  | ready (r : Except WsError BinanceWebsocketMessage)
  | ended
  | pending
  | panicked
deriving DecidableEq

/-- Embedding of `Stream::poll_next` (`websocket.rs` lines 72-89): one
advancement cycle of the engine; an item is routed through the
token-to-descriptor map (`unwrap` panics on absence) and decoded; a
finished-signal returns `Pending` and touches neither map; an empty
engine returns `Ready(Some(Err(NoStreamSubscribed)))`. -/
def pollNext (σ : Schemas) (ws : BinanceWebsocket) (pick : Nat) :
    PollOut × BinanceWebsocket :=
  match advance ws.streams pick with
  | (.item f token, streams') =>
    let ws' := { ws with streams := streams' }
    match lookupA ws.tokens token with
    | none => (.panicked, ws')
    | some sub =>
      match f with
      | .transportError => (.ready (.error .streamError), ws')
      | .frame m => (.ready (parseMessage σ sub m), ws')
  | (.finished _, streams') => (.pending, { ws with streams := streams' })
  | (.empty, _) => (.ready (.error .noStreamSubscribed), ws)
  | (.pending, _) => (.pending, ws)

/-! ## Reachable states -/

/-- One step of the façade: a `subscribe` call (with an arbitrary
handshake outcome), an `unsubscribe` call, or one `poll_next` cycle
(with an arbitrary readiness choice). -/
inductive Step (σ : Schemas) : BinanceWebsocket → BinanceWebsocket → Prop where
  | subscribe (ws : BinanceWebsocket) (sub : Subscription)
      (connect : String → Option StoredStream) :
      Step σ ws (subscribe ws sub connect).2
  | unsubscribe (ws : BinanceWebsocket) (sub : Subscription) :
      Step σ ws (unsubscribe ws sub).2
  | poll (ws : BinanceWebsocket) (pick : Nat) :
      Step σ ws (pollNext σ ws pick).2

/-- States reachable from `BinanceWebsocket::default()` by any sequence
of subscribe / unsubscribe / poll steps. -/
inductive Reachable (σ : Schemas) : BinanceWebsocket → Prop where
  | init : Reachable σ initWS
  | step {ws ws' : BinanceWebsocket} :
      Reachable σ ws → Step σ ws ws' → Reachable σ ws'

/-- The registry coherence that actually holds in reachable states:
map keys are duplicate-free (each descriptor holds at most one token,
each token at most one descriptor), every token stored in the forward
map and every engine member's token has a backward entry, and every
backward entry's descriptor is a forward-map key. -/
def RegistryInv (ws : BinanceWebsocket) : Prop :=
  (keysA ws.subscriptions).Nodup ∧
  (keysA ws.tokens).Nodup ∧
  (keysA ws.streams).Nodup ∧
  (∀ p ∈ ws.subscriptions, p.2 ∈ keysA ws.tokens) ∧
  (∀ p ∈ ws.tokens, p.2 ∈ keysA ws.subscriptions) ∧
  (∀ t ∈ keysA ws.streams, t ∈ keysA ws.tokens)

/-- An all-rejecting schema environment, used for concrete evaluations. -/
def schemasNone : Schemas :=
  ⟨fun _ => none, fun _ => none, fun _ => none, fun _ => none, fun _ => none,
   fun _ => none, fun _ => none, fun _ => none, fun _ => none, fun _ => none,
   fun _ => none⟩

/-- A network environment whose handshake always succeeds and delivers
the given script. -/
def connectWith (conn : StoredStream) : String → Option StoredStream :=
  fun _ => some conn

/-- A network environment whose handshake always fails. -/
def connectFail : String → Option StoredStream := fun _ => none

/-- A concrete state: one subscription whose connection delivers
nothing. -/
def wsTrade : BinanceWebsocket :=
  (subscribe initWS (.Trade "btcusdt") (connectWith [])).2

/-- A concrete state: the same descriptor subscribed twice in a row. -/
def wsDouble : BinanceWebsocket :=
  (subscribe wsTrade (.Trade "btcusdt") (connectWith [])).2

/-- A concrete state: two subscriptions, the first scripted to deliver
one text frame, the second one ping frame. -/
def wsPair : BinanceWebsocket :=
  (subscribe
    (subscribe initWS (.Trade "btcusdt")
      (connectWith [.frame (.Text "bad")])).2
    (.Ticker "ethusdt") (connectWith [.frame (.Ping [])])).2

/-! ## Theorems -/

/-- Claim C5: for every descriptor, if the connection handshake fails,
`subscribe` returns a connection error and leaves the registry maps and
the poll-engine stream set exactly as they were before the call. -/
theorem subscribe_handshake_failure_state_unchanged
    (ws : BinanceWebsocket) (d : Subscription)
    (connect : String → Option StoredStream)
    (h : connect (subscribeEndpoint d) = none) :
    subscribe ws d connect = (.error (), ws) := by
  unfold subscribe
  rw [h]

/-- Witness for claim C5: a failing handshake on a concrete state leaves
it unchanged. -/
theorem subscribe_handshake_failure_state_unchanged_witness :
    subscribe wsTrade (.Ticker "ethusdt") connectFail = (.error (), wsTrade) :=
  subscribe_handshake_failure_state_unchanged wsTrade (.Ticker "ethusdt")
    connectFail rfl

/-- Claim C6: `subscribe` derives exactly the topic string of the
spec's table, passing the symbol's casing through unmodified (the
symbol string appears verbatim in the result). -/
theorem subscribe_topic_derivation (s i k : String) (n : Nat) :
    subscribeTopic (.Trade s) = s ++ "@trade" ∧
    subscribeTopic (.AggregateTrade s) = s ++ "@aggTrade" ∧
    subscribeTopic (.Candlestick s i) = s ++ "@kline_" ++ i ∧
    subscribeTopic (.Depth s) = s ++ "@depth" ∧
    subscribeTopic (.OrderBook s n) = s ++ "@depth" ++ toString n ∧
    subscribeTopic (.MiniTicker s) = s ++ "@miniTicker" ∧
    subscribeTopic .MiniTickerAll = "!miniTicker@arr" ∧
    subscribeTopic (.Ticker s) = s ++ "@ticker" ∧
    subscribeTopic .TickerAll = "!ticker@arr" ∧
    subscribeTopic (.UserData k) = k :=
  ⟨rfl, rfl, rfl, rfl, rfl, rfl, rfl, rfl, rfl, rfl⟩

/-- Claim C9: for every descriptor, decoding a Binary frame yields the
Binary passthrough, Ping and Pong control frames yield the
corresponding passthrough, and a Close frame fails with the
connection-closed error — independently of the descriptor's topic
kind. -/
theorem parse_control_frames (σ : Schemas) (sub : Subscription)
    (b p q : List Nat) :
    parseMessage σ sub (.Binary b) = .ok (.Binary b) ∧
    parseMessage σ sub (.Ping p) = .ok .Ping ∧
    parseMessage σ sub (.Pong q) = .ok .Pong ∧
    parseMessage σ sub .Close = .error .socketClosed :=
  ⟨rfl, rfl, rfl, rfl⟩

/-- Claim C10: `unsubscribe` leaves both hash maps unchanged, and
returns `none` exactly when the descriptor has no forward entry or the
mapped token's stream is no longer present in the engine; otherwise it
returns the extracted stream. -/
theorem unsubscribe_frame_effect (ws : BinanceWebsocket) (d : Subscription) :
    (unsubscribe ws d).2.subscriptions = ws.subscriptions ∧
    (unsubscribe ws d).2.tokens = ws.tokens ∧
    (unsubscribe ws d).1 =
      (lookupA ws.subscriptions d).bind
        (fun t => (lookupA ws.streams t).map SlotData.frames) := by
  unfold unsubscribe
  cases h1 : lookupA ws.subscriptions d with
  | none => simp
  | some t =>
    cases h2 : lookupA ws.streams t with
    | none => simp [h2]
    | some slot => simp [h2]

/-- Counterexample to claim C1: in the concrete reachable state with
one subscription, `unsubscribe` extracts the connection but removes
neither registry direction — both mappings are still present
afterwards. -/
theorem unsubscribe_keeps_registry_cex :
    (unsubscribe wsTrade (.Trade "btcusdt")).1 = some [] ∧
    lookupA (unsubscribe wsTrade (.Trade "btcusdt")).2.subscriptions
      (.Trade "btcusdt") = some 1 ∧
    lookupA (unsubscribe wsTrade (.Trade "btcusdt")).2.tokens 1 =
      some (.Trade "btcusdt") := by
  decide

/-- Claim C1 as amended: for a currently subscribed descriptor whose
stream is still held by the engine, `unsubscribe` extracts the
connection from the engine and returns it, but removes no registry
mapping: both maps are left unchanged. -/
theorem unsubscribe_extracts_stream_maps_unchanged
    (ws : BinanceWebsocket) (d : Subscription) (t : Nat) (slot : SlotData)
    (hsub : lookupA ws.subscriptions d = some t)
    (hstream : lookupA ws.streams t = some slot) :
    (unsubscribe ws d).1 = some slot.frames ∧
    (unsubscribe ws d).2.subscriptions = ws.subscriptions ∧
    (unsubscribe ws d).2.tokens = ws.tokens ∧
    (unsubscribe ws d).2.streams = removeA ws.streams t := by
  simp [unsubscribe, hsub, hstream]

/-- Witness for amended claim C1, at the concrete one-subscription
state. -/
theorem unsubscribe_extracts_stream_maps_unchanged_witness :
    (unsubscribe wsTrade (.Trade "btcusdt")).1 =
      some (SlotData.mk [] false).frames ∧
    (unsubscribe wsTrade (.Trade "btcusdt")).2.subscriptions =
      wsTrade.subscriptions ∧
    (unsubscribe wsTrade (.Trade "btcusdt")).2.tokens = wsTrade.tokens ∧
    (unsubscribe wsTrade (.Trade "btcusdt")).2.streams =
      removeA wsTrade.streams 1 :=
  unsubscribe_extracts_stream_maps_unchanged wsTrade (.Trade "btcusdt") 1
    ⟨[], false⟩ (by decide) (by decide)

/-- Claim C3, evaluated at the failing input: after the engine reports
the finished-signal of a subscription whose connection reached
end-of-stream, `poll_next` returns `Pending` and both registry mapping
directions are still in place — nothing is auto-evicted. -/
theorem finished_signal_no_eviction :
    (pollNext schemasNone wsTrade 0).1 = .pending ∧
    (pollNext schemasNone wsTrade 0).2.subscriptions =
      wsTrade.subscriptions ∧
    (pollNext schemasNone wsTrade 0).2.tokens = wsTrade.tokens ∧
    lookupA (pollNext schemasNone wsTrade 0).2.subscriptions
      (.Trade "btcusdt") = some 1 ∧
    lookupA (pollNext schemasNone wsTrade 0).2.tokens 1 =
      some (.Trade "btcusdt") := by
  decide

/-- Counterexample to claim C4: on the empty state, one poll step
surfaces the no-stream-subscribed error as an item and leaves the state
unchanged, so the next step surfaces the very same item again — the
sequence does not end (`poll_next` never returns `Ready(None)` here). -/
theorem empty_poll_sequence_not_ended_cex :
    pollNext schemasNone initWS 0 =
      (.ready (.error .noStreamSubscribed), initWS) ∧
    (pollNext schemasNone (pollNext schemasNone initWS 0).2 0).1 =
      .ready (.error .noStreamSubscribed) ∧
    (pollNext schemasNone initWS 0).1 ≠ .ended := by
  decide

/-- Claim C4 as amended: whenever the engine holds no connections, a
poll step surfaces the no-stream-subscribed error as a sequence item
and leaves the state unchanged — hence every subsequent step surfaces
the same item again and the sequence never ends. -/
theorem empty_streams_poll_error_item (σ : Schemas) (ws : BinanceWebsocket)
    (pick : Nat) (h : ws.streams = []) :
    pollNext σ ws pick = (.ready (.error .noStreamSubscribed), ws) := by
  unfold pollNext advance
  rw [h]
  rfl

/-- Witness for amended claim C4, at the empty state. -/
theorem empty_streams_poll_error_item_witness :
    pollNext schemasNone initWS 5 =
      (.ready (.error .noStreamSubscribed), initWS) :=
  empty_streams_poll_error_item schemasNone initWS 5 rfl

/-- Counterexample to claim C7: a Text frame matching no schema fails
with the bare JSON parse error, not with an error carrying the
descriptor and a payload excerpt; the error value does not even depend
on the descriptor. -/
theorem parse_error_not_malformed_payload_cex :
    parseMessage schemasNone (.Trade "btcusdt") (.Text "payload") =
      .error .jsonError ∧
    parseMessage schemasNone (.Trade "btcusdt") (.Text "payload") =
      parseMessage schemasNone (.Trade "ethusdt") (.Text "payload") ∧
    parseMessage schemasNone (.Trade "btcusdt") (.Text "payload") ≠
      .error (.malformedPayload (.Trade "btcusdt") "payload") := by
  decide

/-- Claim C7 as amended: a Text frame is parsed against the single
schema selected by the descriptor's topic kind; `UserData` tries the
account-update schema first and falls back to the order-update schema;
a Text frame matching neither its selected schema (nor, for `UserData`,
either schema) fails with the bare JSON parse error, which carries
neither the descriptor nor a payload excerpt. -/
theorem parse_text_schema_dispatch (σ : Schemas) (s i key m : String)
    (n : Nat) :
    parseMessage σ (.Trade s) (.Text m) =
      (match σ.trade m with
       | some p => .ok (.Trade p)
       | none => .error .jsonError) ∧
    parseMessage σ (.AggregateTrade s) (.Text m) =
      (match σ.aggTrade m with
       | some p => .ok (.AggregateTrade p)
       | none => .error .jsonError) ∧
    parseMessage σ (.Candlestick s i) (.Text m) =
      (match σ.candlestick m with
       | some p => .ok (.Candlestick p)
       | none => .error .jsonError) ∧
    parseMessage σ (.Depth s) (.Text m) =
      (match σ.depth m with
       | some p => .ok (.Depth p)
       | none => .error .jsonError) ∧
    parseMessage σ (.OrderBook s n) (.Text m) =
      (match σ.orderBook m with
       | some p => .ok (.OrderBook p)
       | none => .error .jsonError) ∧
    parseMessage σ (.MiniTicker s) (.Text m) =
      (match σ.miniTicker m with
       | some p => .ok (.MiniTicker p)
       | none => .error .jsonError) ∧
    parseMessage σ .MiniTickerAll (.Text m) =
      (match σ.miniTickerAll m with
       | some p => .ok (.MiniTickerAll p)
       | none => .error .jsonError) ∧
    parseMessage σ (.Ticker s) (.Text m) =
      (match σ.ticker m with
       | some p => .ok (.Ticker p)
       | none => .error .jsonError) ∧
    parseMessage σ .TickerAll (.Text m) =
      (match σ.tickerAll m with
       | some p => .ok (.TickerAll p)
       | none => .error .jsonError) ∧
    parseMessage σ (.UserData key) (.Text m) =
      (match σ.accountUpdate m with
       | some a => .ok (.UserAccountUpdate a)
       | none =>
         match σ.userOrderUpdate m with
         | some o => .ok (.UserOrderUpdate o)
         | none => .error .jsonError) := by
  refine ⟨?_, ?_, ?_, ?_, ?_, ?_, ?_, ?_, ?_, ?_⟩
  · cases h : σ.trade m <;> simp [parseMessage, decodeWith, h]
  · cases h : σ.aggTrade m <;> simp [parseMessage, decodeWith, h]
  · cases h : σ.candlestick m <;> simp [parseMessage, decodeWith, h]
  · cases h : σ.depth m <;> simp [parseMessage, decodeWith, h]
  · cases h : σ.orderBook m <;> simp [parseMessage, decodeWith, h]
  · cases h : σ.miniTicker m <;> simp [parseMessage, decodeWith, h]
  · cases h : σ.miniTickerAll m <;> simp [parseMessage, decodeWith, h]
  · cases h : σ.ticker m <;> simp [parseMessage, decodeWith, h]
  · cases h : σ.tickerAll m <;> simp [parseMessage, decodeWith, h]
  · cases h1 : σ.accountUpdate m with
    | some a => simp [parseMessage, h1]
    | none => cases h2 : σ.userOrderUpdate m <;> simp [parseMessage, h1, h2]

/-! ## Association-list lemmas -/

theorem mem_removeA_sub {α β : Type} [DecidableEq α] {m : List (α × β)}
    {k : α} {p : α × β} (h : p ∈ removeA m k) : p ∈ m :=
  (List.mem_filter.mp h).1

theorem mem_insertA_elim {α β : Type} [DecidableEq α] {m : List (α × β)}
    {k : α} {v : β} {p : α × β} (h : p ∈ insertA m k v) :
    p = (k, v) ∨ p ∈ m := by
  rcases List.mem_cons.mp h with h | h
  · exact Or.inl h
  · exact Or.inr (mem_removeA_sub h)

theorem keysA_mem_of_mem {α β : Type} {m : List (α × β)} {p : α × β}
    (h : p ∈ m) : p.1 ∈ keysA m :=
  List.mem_map_of_mem Prod.fst h

theorem mem_keysA_elim {α β : Type} {m : List (α × β)} {x : α}
    (h : x ∈ keysA m) : ∃ p ∈ m, p.1 = x := by
  rcases List.mem_map.mp h with ⟨p, hp, hx⟩
  exact ⟨p, hp, hx⟩

theorem lookupA_mem {α β : Type} [DecidableEq α] {m : List (α × β)} {a : α}
    {b : β} (h : lookupA m a = some b) : (a, b) ∈ m := by
  induction m with
  | nil => cases h
  | cons hd tl ih =>
    obtain ⟨k, v⟩ := hd
    rw [lookupA] at h
    split_ifs at h with hk
    · subst hk
      obtain rfl := Option.some.inj h
      exact List.mem_cons_self _ _
    · exact List.mem_cons_of_mem _ (ih h)

theorem lookupA_some_mem_keys {α β : Type} [DecidableEq α]
    {m : List (α × β)} {a : α} {b : β} (h : lookupA m a = some b) :
    a ∈ keysA m :=
  keysA_mem_of_mem (lookupA_mem h)

theorem keysA_insertA {α β : Type} [DecidableEq α] (m : List (α × β))
    (k : α) (v : β) :
    keysA (insertA m k v) = k :: keysA (removeA m k) := rfl

theorem keysA_removeA {α β : Type} [DecidableEq α] (m : List (α × β))
    (k : α) :
    keysA (removeA m k) = (keysA m).filter (fun x => decide (x ≠ k)) := by
  induction m with
  | nil => rfl
  | cons hd tl ih =>
    obtain ⟨k2, v2⟩ := hd
    by_cases hk : k2 = k
    · subst hk
      simp [removeA, keysA, List.filter_cons] at ih ⊢
      exact ih
    · simp [removeA, keysA, List.filter_cons, hk] at ih ⊢
      exact ih

theorem mem_keysA_removeA_sub {α β : Type} [DecidableEq α]
    {m : List (α × β)} {k x : α} (h : x ∈ keysA (removeA m k)) :
    x ∈ keysA m := by
  rw [keysA_removeA] at h
  exact (List.mem_filter.mp h).1

theorem not_mem_keysA_removeA {α β : Type} [DecidableEq α]
    (m : List (α × β)) (k : α) : k ∉ keysA (removeA m k) := by
  rw [keysA_removeA]
  intro h
  have := (List.mem_filter.mp h).2
  simp at this

theorem nodup_keysA_removeA {α β : Type} [DecidableEq α]
    {m : List (α × β)} (h : (keysA m).Nodup) (k : α) :
    (keysA (removeA m k)).Nodup := by
  rw [keysA_removeA]
  exact h.filter _

theorem nodup_keysA_insertA {α β : Type} [DecidableEq α]
    {m : List (α × β)} (h : (keysA m).Nodup) (k : α) (v : β) :
    (keysA (insertA m k v)).Nodup := by
  rw [keysA_insertA]
  exact List.nodup_cons.mpr ⟨not_mem_keysA_removeA m k, nodup_keysA_removeA h k⟩

theorem mem_keysA_insertA_of_mem {α β : Type} [DecidableEq α]
    {m : List (α × β)} {x : α} (h : x ∈ keysA m) (k : α) (v : β) :
    x ∈ keysA (insertA m k v) := by
  rw [keysA_insertA]
  by_cases hx : x = k
  · exact hx ▸ List.mem_cons_self _ _
  · refine List.mem_cons_of_mem _ ?_
    rw [keysA_removeA]
    exact List.mem_filter.mpr ⟨h, by simp [hx]⟩

theorem lookupA_removeA_ne {α β : Type} [DecidableEq α] {m : List (α × β)}
    {a k : α} (h : a ≠ k) : lookupA (removeA m k) a = lookupA m a := by
  induction m with
  | nil => rfl
  | cons hd tl ih =>
    obtain ⟨k2, v2⟩ := hd
    by_cases hk : k2 = k
    · subst hk
      have h2 : removeA ((k2, v2) :: tl) k2 = removeA tl k2 := by
        simp [removeA, List.filter_cons]
      rw [h2, ih, lookupA, if_neg h]
    · have h2 : removeA ((k2, v2) :: tl) k = (k2, v2) :: removeA tl k := by
        simp [removeA, List.filter_cons, hk]
      rw [h2, lookupA, lookupA]
      by_cases ha : a = k2
      · simp [ha]
      · simp [ha, ih]

theorem lookupA_insertA_ne {α β : Type} [DecidableEq α] {m : List (α × β)}
    {a k : α} (v : β) (h : a ≠ k) :
    lookupA (insertA m k v) a = lookupA m a := by
  rw [insertA, lookupA, if_neg h, lookupA_removeA_ne h]

theorem le_foldr_max (l : List Nat) :
    ∀ x ∈ l, x ≤ l.foldr (fun a b => max a b) 0 := by
  induction l with
  | nil => intro x hx; cases hx
  | cons hd tl ih =>
    intro x hx
    rcases List.mem_cons.mp hx with rfl | hx
    · exact le_max_left _ _
    · exact le_trans (ih x hx) (le_max_right _ _)

theorem freshToken_not_mem (l : List Nat) : freshToken l ∉ l := by
  intro hmem
  have h := le_foldr_max l (freshToken l) hmem
  unfold freshToken at h
  omega

/-! ## Poll-engine lemmas -/

theorem advance_snd_cases (streams : StreamUnordered) (pick : Nat) :
    (advance streams pick).2 = streams ∨
    ∃ t slot fr b, lookupA streams t = some slot ∧
      (advance streams pick).2 = insertA streams t ⟨fr, b⟩ := by
  unfold advance
  split
  · exact Or.inl rfl
  · split
    · exact Or.inl rfl
    · split
      · exact Or.inl rfl
      · next slot hlook =>
        split
        · exact Or.inr ⟨_, _, _, _, hlook, rfl⟩
        · exact Or.inr ⟨_, _, _, _, hlook, rfl⟩

theorem advance_keys_subset {streams : StreamUnordered} {pick : Nat}
    {x : Nat} (h : x ∈ keysA (advance streams pick).2) :
    x ∈ keysA streams := by
  rcases advance_snd_cases streams pick with heq | ⟨t, slot, fr, b, hlook, heq⟩
  · rwa [heq] at h
  · rw [heq, keysA_insertA] at h
    rcases List.mem_cons.mp h with rfl | h
    · exact lookupA_some_mem_keys hlook
    · exact mem_keysA_removeA_sub h

theorem advance_keys_nodup {streams : StreamUnordered} {pick : Nat}
    (h : (keysA streams).Nodup) :
    (keysA (advance streams pick).2).Nodup := by
  rcases advance_snd_cases streams pick with heq | ⟨t, slot, fr, b, _, heq⟩
  · rwa [heq]
  · rw [heq]
    exact nodup_keysA_insertA h t ⟨fr, b⟩

theorem pollNext_maps (σ : Schemas) (ws : BinanceWebsocket) (pick : Nat) :
    (pollNext σ ws pick).2.subscriptions = ws.subscriptions ∧
    (pollNext σ ws pick).2.tokens = ws.tokens ∧
    ((pollNext σ ws pick).2.streams = (advance ws.streams pick).2 ∨
     (pollNext σ ws pick).2.streams = ws.streams) := by
  unfold pollNext
  rcases hadv : advance ws.streams pick with ⟨out, s2⟩
  cases out with
  | item f token =>
    cases htok : lookupA ws.tokens token with
    | none =>
      exact ⟨by simp [htok], by simp [htok], Or.inl (by simp [htok, hadv])⟩
    | some sub =>
      cases f with
      | transportError =>
        exact ⟨by simp [htok], by simp [htok], Or.inl (by simp [htok, hadv])⟩
      | frame m =>
        exact ⟨by simp [htok], by simp [htok], Or.inl (by simp [htok, hadv])⟩
  | finished t => exact ⟨by simp, by simp, Or.inl (by simp [hadv])⟩
  | empty => exact ⟨by simp, by simp, Or.inr (by simp)⟩
  | pending => exact ⟨by simp, by simp, Or.inr (by simp)⟩

theorem pollNext_ne_ended (σ : Schemas) (ws : BinanceWebsocket)
    (pick : Nat) : (pollNext σ ws pick).1 ≠ .ended := by
  unfold pollNext
  rcases advance ws.streams pick with ⟨out, s2⟩
  cases out with
  | item f token =>
    cases htok : lookupA ws.tokens token with
    | none => simp [htok]
    | some sub => cases f <;> simp [htok]
  | finished t => simp
  | empty => simp
  | pending => simp

/-! ## Registry invariant preservation -/

theorem registry_inv_init : RegistryInv initWS := by
  refine ⟨List.nodup_nil, List.nodup_nil, List.nodup_nil, ?_, ?_, ?_⟩ <;>
    intro p hp <;> cases hp

theorem registry_inv_step {σ : Schemas} {ws ws' : BinanceWebsocket}
    (h : Step σ ws ws') (inv : RegistryInv ws) : RegistryInv ws' := by
  obtain ⟨h1, h2, h3, h4, h5, h6⟩ := inv
  cases h with
  | subscribe sub connect =>
    cases hc : connect (subscribeEndpoint sub) with
    | none => simpa [subscribe, hc] using ⟨h1, h2, h3, h4, h5, h6⟩
    | some conn =>
      have hfresh := freshToken_not_mem (keysA ws.streams)
      refine ⟨?_, ?_, ?_, ?_, ?_, ?_⟩ <;>
        simp only [subscribe, hc, streamInsert]
      · exact nodup_keysA_insertA h1 _ _
      · exact nodup_keysA_insertA h2 _ _
      · exact List.nodup_cons.mpr ⟨hfresh, h3⟩
      · intro p hp
        rcases mem_insertA_elim hp with rfl | hp
        · exact List.mem_cons_self _ _
        · exact mem_keysA_insertA_of_mem (h4 p hp) _ _
      · intro p hp
        rcases mem_insertA_elim hp with rfl | hp
        · exact List.mem_cons_self _ _
        · exact mem_keysA_insertA_of_mem (h5 p hp) _ _
      · intro t ht
        rcases List.mem_cons.mp ht with rfl | ht
        · exact List.mem_cons_self _ _
        · exact mem_keysA_insertA_of_mem (h6 t ht) _ _
  | unsubscribe sub =>
    cases hl : lookupA ws.subscriptions sub with
    | none => simpa [unsubscribe, hl] using ⟨h1, h2, h3, h4, h5, h6⟩
    | some token =>
      cases hs : lookupA ws.streams token with
      | none => simpa [unsubscribe, hl, hs] using ⟨h1, h2, h3, h4, h5, h6⟩
      | some slot =>
        refine ⟨?_, ?_, ?_, ?_, ?_, ?_⟩ <;>
          simp only [unsubscribe, hl, hs]
        · exact h1
        · exact h2
        · exact nodup_keysA_removeA h3 token
        · exact h4
        · exact h5
        · intro t ht
          exact h6 t (mem_keysA_removeA_sub ht)
  | poll pick =>
    obtain ⟨hsub, htok, hstr⟩ := pollNext_maps σ ws pick
    refine ⟨?_, ?_, ?_, ?_, ?_, ?_⟩
    · rwa [hsub]
    · rwa [htok]
    · rcases hstr with hstr | hstr
      · rw [hstr]; exact advance_keys_nodup h3
      · rwa [hstr]
    · intro p hp
      rw [hsub] at hp
      rw [htok]
      exact h4 p hp
    · intro p hp
      rw [htok] at hp
      rw [hsub]
      exact h5 p hp
    · intro t ht
      rw [htok]
      rcases hstr with hstr | hstr
      · rw [hstr] at ht
        exact h6 t (advance_keys_subset ht)
      · rw [hstr] at ht
        exact h6 t ht

/-- Counterexample to claim C2: the reachable state obtained by
subscribing the same descriptor twice holds a dangling prior token —
token 1 still maps back to the descriptor while the forward direction
holds only token 2, so a token exists in one mapping direction without
the corresponding entry in the other. -/
theorem registry_dangling_token_cex :
    Reachable schemasNone wsDouble ∧
    wsDouble.subscriptions = [(.Trade "btcusdt", 2)] ∧
    wsDouble.tokens = [(2, .Trade "btcusdt"), (1, .Trade "btcusdt")] := by
  refine ⟨?_, by decide, by decide⟩
  exact Reachable.step
    (Reachable.step Reachable.init
      (Step.subscribe initWS (.Trade "btcusdt") (connectWith [])))
    (Step.subscribe wsTrade (.Trade "btcusdt") (connectWith []))

/-- Claim C2 as amended: in every reachable state the registry keys are
duplicate-free (each descriptor holds at most one live token, each
token at most one descriptor), every token stored in the forward map
and every engine member's token has a backward entry, and every
backward entry's descriptor is a forward key; however, re-registering
an already-subscribed descriptor leaves the prior token's backward
entry dangling, and registry entries are not removed at unsubscribe or
at end-of-stream, so entries can outlive their connections. -/
theorem registry_reachable_invariant (σ : Schemas) (ws : BinanceWebsocket)
    (h : Reachable σ ws) : RegistryInv ws := by
  induction h with
  | init => exact registry_inv_init
  | step _ hs ih => exact registry_inv_step hs ih

/-- Witness for amended claim C2, at a concrete reachable state. -/
theorem registry_reachable_invariant_witness : RegistryInv wsDouble :=
  registry_reachable_invariant schemasNone wsDouble
    (Reachable.step
      (Reachable.step Reachable.init
        (Step.subscribe initWS (.Trade "btcusdt") (connectWith [])))
      (Step.subscribe wsTrade (.Trade "btcusdt") (connectWith [])))

/-! ## One advancement cycle on a chosen ready member -/

theorem mem_readyTokens_of_lookupA {streams : StreamUnordered} {t : Nat}
    {fr : List StreamItem} (h : lookupA streams t = some ⟨fr, false⟩) :
    t ∈ readyTokens streams := by
  have hm : (t, (⟨fr, false⟩ : SlotData)) ∈ streams := lookupA_mem h
  have hf : (t, (⟨fr, false⟩ : SlotData)) ∈
      streams.filter (fun p => !p.2.finishedEmitted) :=
    List.mem_filter.mpr ⟨hm, rfl⟩
  exact keysA_mem_of_mem hf

theorem advance_item {streams : StreamUnordered} {t : Nat} {f : StreamItem}
    {rest : List StreamItem} {pick : Nat}
    (hs : lookupA streams t = some ⟨f :: rest, false⟩)
    (hpick : pickReady streams pick = t) :
    advance streams pick = (.item f t, insertA streams t ⟨rest, false⟩) := by
  have hne : streams ≠ [] := by
    intro h
    rw [h] at hs
    cases hs
  have h1 : streams.isEmpty = false := by
    cases streams with
    | nil => exact absurd rfl hne
    | cons hd tl => rfl
  have hready := mem_readyTokens_of_lookupA hs
  have h2 : (readyTokens streams).isEmpty = false := by
    cases hh : readyTokens streams with
    | nil => rw [hh] at hready; cases hready
    | cons hd tl => rfl
  simp [advance, h1, h2, hpick, hs]

theorem pollNext_item {σ : Schemas} {ws : BinanceWebsocket} {pick t : Nat}
    {m : Message} {rest : List StreamItem} {sub : Subscription}
    (hs : lookupA ws.streams t = some ⟨.frame m :: rest, false⟩)
    (hpick : pickReady ws.streams pick = t)
    (htok : lookupA ws.tokens t = some sub) :
    pollNext σ ws pick =
      (.ready (parseMessage σ sub m),
       { ws with streams := insertA ws.streams t ⟨rest, false⟩ }) := by
  unfold pollNext
  rw [advance_item hs hpick]
  simp [htok]

/-- Claim C8: in a state where token `ta` holds a frame that decodes to
an error (a malformed text frame, a Close frame, ...) and another token
`tb` holds a well-formed frame, the advancement step that picks `ta`
produces exactly one error item and does not terminate the sequence:
the next advancement step still delivers `tb`'s item, and no
`poll_next` call ever ends the sequence. -/
theorem poll_error_item_scoped_sequence_alive (σ : Schemas)
    (ws : BinanceWebsocket) (ta tb : Nat) (subA subB : Subscription)
    (ma mb : Message) (restA restB : List StreamItem)
    (msgB : BinanceWebsocketMessage) (e : WsError) (pick1 pick2 : Nat)
    (hsA : lookupA ws.streams ta = some ⟨.frame ma :: restA, false⟩)
    (htokA : lookupA ws.tokens ta = some subA)
    (herr : parseMessage σ subA ma = .error e)
    (hpick1 : pickReady ws.streams pick1 = ta)
    (hsB : lookupA ws.streams tb = some ⟨.frame mb :: restB, false⟩)
    (hne : tb ≠ ta)
    (htokB : lookupA ws.tokens tb = some subB)
    (hok : parseMessage σ subB mb = .ok msgB)
    (hpick2 : pickReady (insertA ws.streams ta ⟨restA, false⟩) pick2 = tb) :
    (pollNext σ ws pick1).1 = .ready (.error e) ∧
    (pollNext σ (pollNext σ ws pick1).2 pick2).1 = .ready (.ok msgB) ∧
    ∀ (ws2 : BinanceWebsocket) (p2 : Nat),
      (pollNext σ ws2 p2).1 ≠ .ended := by
  have hp1 := pollNext_item (σ := σ) hsA hpick1 htokA
  have hsB' : lookupA
      ({ ws with streams := insertA ws.streams ta ⟨restA, false⟩ :
        BinanceWebsocket }).streams tb =
      some ⟨.frame mb :: restB, false⟩ := by
    show lookupA (insertA ws.streams ta ⟨restA, false⟩) tb = _
    rw [lookupA_insertA_ne _ hne]
    exact hsB
  have hp2 := pollNext_item (σ := σ) hsB' hpick2 htokB
  refine ⟨?_, ?_, ?_⟩
  · rw [hp1, herr]
  · rw [hp1]
    rw [hp2, hok]
  · intro ws2 p2
    exact pollNext_ne_ended σ ws2 p2

/-- Witness for claim C8, at a concrete two-subscription state: one
poll step consumes the malformed frame of the first token and yields
one error item; the next poll step delivers the second token's item. -/
theorem poll_error_item_scoped_sequence_alive_witness :
    (pollNext schemasNone wsPair 1).1 = .ready (.error .jsonError) ∧
    (pollNext schemasNone (pollNext schemasNone wsPair 1).2 1).1 =
      .ready (.ok .Ping) := by
  have h := poll_error_item_scoped_sequence_alive schemasNone wsPair 1 2
    (.Trade "btcusdt") (.Ticker "ethusdt") (.Text "bad") (.Ping []) [] []
    .Ping .jsonError 1 1 (by decide) (by decide) (by decide) (by decide)
    (by decide) (by decide) (by decide) (by decide) (by decide)
  exact ⟨h.1, h.2.1⟩

end Binance
